import Mathlib

set_option linter.unusedVariables false

/-!
Shallow embedding of the particle-filter belief simulator `sim_r` (and its
helper `upfun`) from the repository's model code.  Gaussian draws
`normrnd(mu, sigma)` are embedded as `mu + sigma * z` where `z` is a
standard-normal realization supplied by an explicit noise oracle; the
bootstrap draw `randsample(find(ires), nsmp, true)` is embedded as an
oracle of natural numbers reduced modulo the survivor count, so that every
survivor index is reachable and only survivor indices are reachable.
-/

namespace Sim

noncomputable section

/-- The parameter set (h, sinf, ssel, scnf, tcnf, gcnf) of `sim_r`. -/
structure Params where
  h : ℝ
  sinf : ℝ
  ssel : ℝ
  scnf : ℝ
  tcnf : ℝ
  gcnf : ℝ

/-- Per-trial inputs: `seqind` (trial index within its block, 1-based;
the trial is a block start iff `seqind = 1`), the trial's total stimulus
log-likelihood ratio `seqllr`, the number of evidence samples `seqlen`,
and the subject's observed values `cfg.rbef`, `cfg.cbef`, `cfg.raft`,
`cfg.caft` for this trial. -/
structure TrialInput where
  seqind : ℕ
  seqllr : ℝ
  seqlen : ℕ
  rbefObs : ℕ
  cbefObs : ℕ
  raftObs : ℕ
  caftObs : ℕ

/-- The noise oracle for one trial over a population of `n` particles:
standard-normal realizations for inference, selection and confidence
noise, and the bootstrap-resampling draws. -/
structure Noise (n : ℕ) where
  zinf : Fin n → ℝ
  zsel : Fin n → ℝ
  zcnf : Fin n → ℝ
  pick : Fin n → ℕ

/-- The state carried from one trial to the next: each particle's
log-belief `xt`, last response `raft`, and last confidence `caft`
(`none` when the variant does not fit confidence, mirroring MATLAB's
never-assigned `NaN` row). -/
structure SimState (n : ℕ) where
  xt : Fin n → ℝ
  raft : Fin n → ℕ
  caft : Fin n → Option ℕ

/-- Everything one loop iteration of `sim_r` computes for its trial:
the per-particle `rbef`/`cbef` rows, the hazard-corrected belief `xpre`,
the post-evidence belief `xevid` (the value of `xt(iseq,:)` after the
`normrnd` update, before resampling), the selection-noised decision
variable `xr`, the responses `raft`, the confidences `caft`, the
survival mask `ires`, the survival weight `psmp`, and the belief `xt`
carried to the next trial (post-resampling). -/
structure TrialResult (n : ℕ) where
  rbef : Fin n → ℕ
  cbef : Fin n → Option ℕ
  xpre : Fin n → ℝ
  xevid : Fin n → ℝ
  xr : Fin n → ℝ
  raft : Fin n → ℕ
  caft : Fin n → Option ℕ
  ires : Fin n → Bool
  psmp : ℝ
  xt : Fin n → ℝ

/-- `upfun`: the hazard-rate correction
`x + log((1-h)/h + exp(-x)) - log((1-h)/h + exp(+x))`.  Faithful on the
spec's domain h ∈ (0,1).  At h = 0 the term `(1-h)/h` divides by zero:
the source's IEEE evaluation gives `Inf - Inf = NaN`, which forces every
downstream comparison false and hence response 1, while Lean's `x/0 = 0`
convention gives the finite value `-x`; the one statement evaluated at
h = 0 (the C9 counterexample) is chosen so that the emitted responses of
the two semantics coincide. -/
def upfun (x h : ℝ) : ℝ :=
  x + Real.log ((1 - h) / h + Real.exp (-x)) - Real.log ((1 - h) / h + Real.exp x)

/-- `rbef(iseq,:)`: the previous responses seen by the current trial —
the particle's own previous response on a continuation trial, the
subject's observed previous response on a block-start trial. -/
def rbefF (tr : TrialInput) {n : ℕ} (prev : SimState n) (i : Fin n) : ℕ :=
  if tr.seqind > 1 then prev.raft i else tr.rbefObs

/-- `cbef(iseq,:)`: as `rbefF` for confidence; assigned only when the
variant fits confidence (`fitcnf`), otherwise it keeps MATLAB's `NaN`. -/
def cbefF (fitcnf : Bool) (tr : TrialInput) {n : ℕ} (prev : SimState n) (i : Fin n) : Option ℕ :=
  if fitcnf then (if tr.seqind > 1 then prev.caft i else some tr.cbefObs) else none

/-- The belief entering evidence accumulation: `upfun` of the carried
belief on a continuation trial; on a block-start trial the zeros
initialization of `xt` is kept (the hazard correction is skipped and no
belief is carried).  `up` is the carried-belief correction, instantiated
with `upfun · h` by the source. -/
def xpreF (up : ℝ → ℝ) (tr : TrialInput) {n : ℕ} (prev : SimState n) (i : Fin n) : ℝ :=
  if tr.seqind > 1 then up (prev.xt i) else 0

/-- `xt(iseq,:) = normrnd(xt(iseq,:) + seqllr(iseq), sqrt(seqlen(iseq))*sinf)`. -/
def xevidF (up : ℝ → ℝ) (p : Params) (tr : TrialInput) {n : ℕ} (nz : Noise n)
    (prev : SimState n) (i : Fin n) : ℝ :=
  xpreF up tr prev i + tr.seqllr + Real.sqrt (tr.seqlen : ℝ) * p.sinf * nz.zinf i

/-- `xr = normrnd(xt(iseq,:), ssel)`: the selection-noised decision variable. -/
def xrF (up : ℝ → ℝ) (p : Params) (tr : TrialInput) {n : ℕ} (nz : Noise n)
    (prev : SimState n) (i : Fin n) : ℝ :=
  xevidF up p tr nz prev i + p.ssel * nz.zsel i

/-- `raft(iseq,:) = 1 + (xr < 0)`. -/
def raftF (up : ℝ → ℝ) (p : Params) (tr : TrialInput) {n : ℕ} (nz : Noise n)
    (prev : SimState n) (i : Fin n) : ℕ :=
  if xrF up p tr nz prev i < 0 then 2 else 1

/-- The confidence evidence: `xc = xt .* (3 - 2*raft)`, multiplied by
`gcnf` exactly on response switches, plus confidence noise. -/
def xcF (up : ℝ → ℝ) (p : Params) (tr : TrialInput) {n : ℕ} (nz : Noise n)
    (prev : SimState n) (i : Fin n) : ℝ :=
  (if raftF up p tr nz prev i ≠ rbefF tr prev i
    then xevidF up p tr nz prev i * (3 - 2 * (raftF up p tr nz prev i : ℝ)) * p.gcnf
    else xevidF up p tr nz prev i * (3 - 2 * (raftF up p tr nz prev i : ℝ)))
  + p.scnf * nz.zcnf i

/-- `caft(iseq,:) = 1 + (xc > tcnf)`. -/
def caftVF (up : ℝ → ℝ) (p : Params) (tr : TrialInput) {n : ℕ} (nz : Noise n)
    (prev : SimState n) (i : Fin n) : ℕ :=
  if xcF up p tr nz prev i > p.tcnf then 2 else 1

/-- The confidence row as emitted: assigned only under `fitcnf`. -/
def caftF (up : ℝ → ℝ) (fitcnf : Bool) (p : Params) (tr : TrialInput) {n : ℕ} (nz : Noise n)
    (prev : SimState n) (i : Fin n) : Option ℕ :=
  if fitcnf then some (caftVF up p tr nz prev i) else none

/-- `ires`: the survival mask — response must match the observation and,
when fitting confidence, the confidence must match too. -/
def iresF (up : ℝ → ℝ) (fitcnf : Bool) (p : Params) (tr : TrialInput) {n : ℕ} (nz : Noise n)
    (prev : SimState n) (i : Fin n) : Bool :=
  if fitcnf then
    decide (raftF up p tr nz prev i = tr.raftObs) && decide (caftVF up p tr nz prev i = tr.caftObs)
  else decide (raftF up p tr nz prev i = tr.raftObs)

/-- `find(ires)`: the surviving particle indices, in index order. -/
def survivors (n : ℕ) (m : Fin n → Bool) : List (Fin n) :=
  (List.finRange n).filter (fun i => m i)

/-- `mean(ires)`: the fraction of surviving particles. -/
def survFrac (n : ℕ) (m : Fin n → Bool) : ℝ :=
  ((Finset.univ.filter (fun i : Fin n => m i = true)).card : ℝ) / (n : ℝ)

/-- `xt(iseq, randsample(find(ires), nsmp, true))` when any particle
survives, `0` for every particle when none does. -/
def resampleX (n : ℕ) (xe : Fin n → ℝ) (m : Fin n → Bool) (pick : Fin n → ℕ) (i : Fin n) : ℝ :=
  if hs : (survivors n m).length = 0 then 0
  else
    xe ((survivors n m).get
      ⟨pick i % (survivors n m).length, Nat.mod_lt _ (Nat.pos_of_ne_zero hs)⟩)

/-- The trial's emitted survival weight: `psmp` keeps its all-ones
initialization unless the resampling branch overwrites it. -/
def psmpF (up : ℝ → ℝ) (fitcnf resamp : Bool) (p : Params) (tr : TrialInput) {n : ℕ}
    (nz : Noise n) (prev : SimState n) : ℝ :=
  if resamp then survFrac n (iresF up fitcnf p tr nz prev) else 1

/-- The belief carried to the next trial: the resampled beliefs under
conditioning, each particle's own post-evidence belief otherwise. -/
def xtF (up : ℝ → ℝ) (fitcnf resamp : Bool) (p : Params) (tr : TrialInput) {n : ℕ}
    (nz : Noise n) (prev : SimState n) (i : Fin n) : ℝ :=
  if resamp then
    resampleX n (xevidF up p tr nz prev) (iresF up fitcnf p tr nz prev) nz.pick i
  else xevidF up p tr nz prev i

/-- One iteration of the `for iseq = 1:nseq` loop of `sim_r`,
parameterized by the carried-belief correction `up`. -/
def trialStepG (up : ℝ → ℝ) (fitcnf resamp : Bool) (p : Params) {n : ℕ}
    (tr : TrialInput) (nz : Noise n) (prev : SimState n) : TrialResult n :=
  ⟨rbefF tr prev, cbefF fitcnf tr prev, xpreF up tr prev, xevidF up p tr nz prev,
    xrF up p tr nz prev, raftF up p tr nz prev, caftF up fitcnf p tr nz prev,
    iresF up fitcnf p tr nz prev, psmpF up fitcnf resamp p tr nz prev,
    xtF up fitcnf resamp p tr nz prev⟩

/-- One iteration of the loop of `sim_r` as the source runs it, with the
hazard correction `upfun · h`. -/
def trialStep (fitcnf resamp : Bool) (p : Params) {n : ℕ}
    (tr : TrialInput) (nz : Noise n) (prev : SimState n) : TrialResult n :=
  trialStepG (fun x => upfun x p.h) fitcnf resamp p tr nz prev

/-- The state a trial's result hands to the next trial.  Resampling only
rewrote `xt`; `raft`/`caft` remain each particle's own outputs. -/
def nextState {n : ℕ} (r : TrialResult n) : SimState n :=
  ⟨r.xt, r.raft, r.caft⟩

/-- The trial loop of `sim_r` over a list of (trial input, noise) pairs,
parameterized by the carried-belief correction `up`. -/
def runSimG (up : ℝ → ℝ) (fitcnf resamp : Bool) (p : Params) {n : ℕ} :
    SimState n → List (TrialInput × Noise n) → List (TrialResult n)
  | _, [] => []
  | st, tn :: rest =>
    trialStepG up fitcnf resamp p tn.1 tn.2 st ::
      runSimG up fitcnf resamp p (nextState (trialStepG up fitcnf resamp p tn.1 tn.2 st)) rest

/-- The trial loop of `sim_r` as the source runs it. -/
def runSim (fitcnf resamp : Bool) (p : Params) {n : ℕ}
    (st : SimState n) (ts : List (TrialInput × Noise n)) : List (TrialResult n) :=
  runSimG (fun x => upfun x p.h) fitcnf resamp p st ts

/-- The zeros/NaN initialization of `sim_r` (`xt = zeros`; the response
and confidence rows are never read before being written on well-formed
inputs whose first trial starts a block). -/
def initState (n : ℕ) : SimState n :=
  ⟨fun _ => 0, fun _ => 0, fun _ => none⟩

@[simp] theorem trialStep_rbef (fitcnf resamp : Bool) (p : Params) {n : ℕ}
    (tr : TrialInput) (nz : Noise n) (prev : SimState n) :
    (trialStep fitcnf resamp p tr nz prev).rbef = rbefF tr prev := rfl

@[simp] theorem trialStep_cbef (fitcnf resamp : Bool) (p : Params) {n : ℕ}
    (tr : TrialInput) (nz : Noise n) (prev : SimState n) :
    (trialStep fitcnf resamp p tr nz prev).cbef = cbefF fitcnf tr prev := rfl

@[simp] theorem trialStep_xpre (fitcnf resamp : Bool) (p : Params) {n : ℕ}
    (tr : TrialInput) (nz : Noise n) (prev : SimState n) :
    (trialStep fitcnf resamp p tr nz prev).xpre = xpreF (fun x => upfun x p.h) tr prev := rfl

@[simp] theorem trialStep_xevid (fitcnf resamp : Bool) (p : Params) {n : ℕ}
    (tr : TrialInput) (nz : Noise n) (prev : SimState n) :
    (trialStep fitcnf resamp p tr nz prev).xevid
      = xevidF (fun x => upfun x p.h) p tr nz prev := rfl

@[simp] theorem trialStep_xr (fitcnf resamp : Bool) (p : Params) {n : ℕ}
    (tr : TrialInput) (nz : Noise n) (prev : SimState n) :
    (trialStep fitcnf resamp p tr nz prev).xr = xrF (fun x => upfun x p.h) p tr nz prev := rfl

@[simp] theorem trialStep_raft (fitcnf resamp : Bool) (p : Params) {n : ℕ}
    (tr : TrialInput) (nz : Noise n) (prev : SimState n) :
    (trialStep fitcnf resamp p tr nz prev).raft = raftF (fun x => upfun x p.h) p tr nz prev := rfl

@[simp] theorem trialStep_caft (fitcnf resamp : Bool) (p : Params) {n : ℕ}
    (tr : TrialInput) (nz : Noise n) (prev : SimState n) :
    (trialStep fitcnf resamp p tr nz prev).caft
      = caftF (fun x => upfun x p.h) fitcnf p tr nz prev := rfl

@[simp] theorem trialStep_ires (fitcnf resamp : Bool) (p : Params) {n : ℕ}
    (tr : TrialInput) (nz : Noise n) (prev : SimState n) :
    (trialStep fitcnf resamp p tr nz prev).ires
      = iresF (fun x => upfun x p.h) fitcnf p tr nz prev := rfl

@[simp] theorem trialStep_psmp (fitcnf resamp : Bool) (p : Params) {n : ℕ}
    (tr : TrialInput) (nz : Noise n) (prev : SimState n) :
    (trialStep fitcnf resamp p tr nz prev).psmp
      = psmpF (fun x => upfun x p.h) fitcnf resamp p tr nz prev := rfl

@[simp] theorem trialStep_xt (fitcnf resamp : Bool) (p : Params) {n : ℕ}
    (tr : TrialInput) (nz : Noise n) (prev : SimState n) :
    (trialStep fitcnf resamp p tr nz prev).xt
      = xtF (fun x => upfun x p.h) fitcnf resamp p tr nz prev := rfl

/-- C1: on a non-block-start trial with hazard rate in (0,1), the
hazard-corrected log-belief entering evidence accumulation is exactly
`x + ln((1-h)/h + e^{-x}) - ln((1-h)/h + e^{+x})` of the carried
belief `x`. -/
theorem hazard_correction_formula (fitcnf resamp : Bool) (p : Params) {n : ℕ}
    (tr : TrialInput) (nz : Noise n) (prev : SimState n) (i : Fin n)
    (h0 : 0 < p.h) (h1 : p.h < 1) (hseq : 1 < tr.seqind) :
    (trialStep fitcnf resamp p tr nz prev).xpre i
      = prev.xt i + Real.log ((1 - p.h) / p.h + Real.exp (-(prev.xt i)))
        - Real.log ((1 - p.h) / p.h + Real.exp (prev.xt i)) := by
  simp [xpreF, upfun, hseq]

/-- Parameters used by witnesses: hazard 1/2, all noise off. -/
def wP : Params := ⟨1 / 2, 0, 0, 0, 0, 0⟩

/-- A continuation trial (second of its block) used by witnesses. -/
def wTrialCont : TrialInput := ⟨2, 1, 2, 1, 1, 1, 1⟩

/-- The all-zero noise oracle used by witnesses. -/
def wNz : Noise 1 := ⟨fun _ => 0, fun _ => 0, fun _ => 0, fun _ => 0⟩

theorem hazard_correction_formula_w :
    (trialStep false false wP wTrialCont wNz (initState 1)).xpre 0
      = (initState 1).xt 0 + Real.log ((1 - wP.h) / wP.h + Real.exp (-((initState 1).xt 0)))
        - Real.log ((1 - wP.h) / wP.h + Real.exp ((initState 1).xt 0)) :=
  hazard_correction_formula false false wP wTrialCont wNz (initState 1) 0
    (by norm_num [wP]) (by norm_num [wP]) (by norm_num [wTrialCont])

/-- C5: the response is 2 iff the selection-noised decision variable is
strictly negative, else 1; and, when fitting confidence, the confidence
is 2 iff the belief signed toward the response, gained by `gcnf` exactly
on switches, plus confidence noise, strictly exceeds `tcnf`, else 1. -/
theorem response_confidence_rule (fitcnf resamp : Bool) (p : Params) {n : ℕ}
    (tr : TrialInput) (nz : Noise n) (prev : SimState n) (i : Fin n) :
    ((trialStep fitcnf resamp p tr nz prev).raft i
        = if (trialStep fitcnf resamp p tr nz prev).xr i < 0 then 2 else 1) ∧
    ((trialStep true resamp p tr nz prev).caft i
        = some (if (trialStep true resamp p tr nz prev).xevid i
              * (3 - 2 * ((trialStep true resamp p tr nz prev).raft i : ℝ))
              * (if (trialStep true resamp p tr nz prev).raft i
                  ≠ (trialStep true resamp p tr nz prev).rbef i then p.gcnf else 1)
              + p.scnf * nz.zcnf i > p.tcnf then 2 else 1)) := by
  refine ⟨rfl, ?_⟩
  simp only [trialStep_caft, trialStep_xevid, trialStep_raft, trialStep_rbef,
    caftF, if_true]
  congr 1
  rw [caftVF, xcF]
  by_cases hsw : raftF (fun x => upfun x p.h) p tr nz prev i ≠ rbefF tr prev i
  · simp only [if_pos hsw]
  · simp only [if_neg hsw, mul_one]

/-- C6: evidence accumulation adds the trial's total log-likelihood
ratio plus one Gaussian draw scaled by `sqrt(seqlen) * sinf`, whose
variance is `seqlen * sinf^2` — and that scale differs from the
`sqrt(seqlen+1) * sinf` that `seqlen + 1` independent per-sample draws
would give, whenever `sinf > 0`. -/
theorem inference_noise_scaling (fitcnf resamp : Bool) (p : Params) {n : ℕ}
    (tr : TrialInput) (nz : Noise n) (prev : SimState n) (hs : 0 < p.sinf) :
    (∀ i, (trialStep fitcnf resamp p tr nz prev).xevid i
        = (trialStep fitcnf resamp p tr nz prev).xpre i + tr.seqllr
          + Real.sqrt (tr.seqlen : ℝ) * p.sinf * nz.zinf i) ∧
    (Real.sqrt (tr.seqlen : ℝ) * p.sinf) ^ 2 = (tr.seqlen : ℝ) * p.sinf ^ 2 ∧
    Real.sqrt (tr.seqlen : ℝ) * p.sinf ≠ Real.sqrt ((tr.seqlen : ℝ) + 1) * p.sinf := by
  refine ⟨fun i => rfl, ?_, ?_⟩
  · rw [mul_pow, Real.sq_sqrt (Nat.cast_nonneg _)]
  · have hlt : Real.sqrt (tr.seqlen : ℝ) < Real.sqrt ((tr.seqlen : ℝ) + 1) :=
      Real.sqrt_lt_sqrt (Nat.cast_nonneg _) (by linarith)
    exact ne_of_lt (mul_lt_mul_of_pos_right hlt hs)

/-- Parameters with unit inference noise, used by the C6 witness. -/
def wPs : Params := ⟨1 / 2, 1, 0, 0, 0, 0⟩

theorem inference_noise_scaling_w :
    (∀ i, (trialStep false false wPs wTrialCont wNz (initState 1)).xevid i
        = (trialStep false false wPs wTrialCont wNz (initState 1)).xpre i + wTrialCont.seqllr
          + Real.sqrt (wTrialCont.seqlen : ℝ) * wPs.sinf * wNz.zinf i) ∧
    (Real.sqrt (wTrialCont.seqlen : ℝ) * wPs.sinf) ^ 2
        = (wTrialCont.seqlen : ℝ) * wPs.sinf ^ 2 ∧
    Real.sqrt (wTrialCont.seqlen : ℝ) * wPs.sinf
      ≠ Real.sqrt ((wTrialCont.seqlen : ℝ) + 1) * wPs.sinf :=
  inference_noise_scaling false false wPs wTrialCont wNz (initState 1) (by norm_num [wPs])

/-- C7: a block-start trial keeps the zero belief (no hazard update is
applied to any carried belief) and seeds the previous response and,
when fitting confidence, the previous confidence from the subject's
observed values; a continuation trial applies `upfun` to the carried
belief and copies each particle's own previous outputs. -/
theorem block_start_seeding (fitcnf resamp : Bool) (p : Params) {n : ℕ}
    (tr : TrialInput) (nz : Noise n) (prev : SimState n) (i : Fin n) :
    (tr.seqind ≤ 1 →
      (trialStep fitcnf resamp p tr nz prev).xpre i = 0 ∧
      (trialStep fitcnf resamp p tr nz prev).rbef i = tr.rbefObs ∧
      (fitcnf = true → (trialStep fitcnf resamp p tr nz prev).cbef i = some tr.cbefObs)) ∧
    (1 < tr.seqind →
      (trialStep fitcnf resamp p tr nz prev).xpre i = upfun (prev.xt i) p.h ∧
      (trialStep fitcnf resamp p tr nz prev).rbef i = prev.raft i ∧
      (fitcnf = true → (trialStep fitcnf resamp p tr nz prev).cbef i = prev.caft i)) := by
  constructor
  · intro hle
    have hne : ¬ (1 < tr.seqind) := by omega
    refine ⟨?_, ?_, fun hf => ?_⟩
    · simp [xpreF, hne]
    · simp [rbefF, hne]
    · subst hf; simp [cbefF, hne]
  · intro hgt
    refine ⟨?_, ?_, fun hf => ?_⟩
    · simp [xpreF, hgt]
    · simp [rbefF, hgt]
    · subst hf; simp [cbefF, hgt]

/-- A block-start conditioning trial with observed response `robs`,
used by witnesses: with zero noise and evidence `+1`, every simulated
response is 1, so the particles all survive iff `robs = 1`. -/
def wTrial (robs : ℕ) : TrialInput := ⟨1, 1, 2, 1, 1, robs, 1⟩

theorem wRaft_eval (robs : ℕ) (i : Fin 1) :
    raftF (fun x => upfun x wP.h) wP (wTrial robs) wNz (initState 1) i = 1 := by
  norm_num [raftF, xrF, xevidF, xpreF, wP, wTrial, wNz, initState]

theorem wIres_eval (robs : ℕ) (i : Fin 1) :
    iresF (fun x => upfun x wP.h) false wP (wTrial robs) wNz (initState 1) i
      = decide (1 = robs) := by
  simp [iresF, wRaft_eval]
  simp [wTrial]

/-- C2: under conditioning, the emitted survival weight is the fraction
of particles whose pre-resample simulated behavior matches the
observation; it lies in [0,1], is 1 iff every particle matches, is 0
iff none does, and a particle matches exactly when its response equals
the observed response and, when fitting confidence, its confidence
equals the observed confidence. -/
theorem survival_weight_spec (fitcnf : Bool) (p : Params) {n : ℕ}
    (tr : TrialInput) (nz : Noise n) (prev : SimState n) (hn : 0 < n) :
    ((trialStep fitcnf true p tr nz prev).psmp
        = ((Finset.univ.filter
            (fun i : Fin n => (trialStep fitcnf true p tr nz prev).ires i = true)).card : ℝ)
          / (n : ℝ)) ∧
    (0 ≤ (trialStep fitcnf true p tr nz prev).psmp
      ∧ (trialStep fitcnf true p tr nz prev).psmp ≤ 1) ∧
    ((trialStep fitcnf true p tr nz prev).psmp = 1
      ↔ ∀ i, (trialStep fitcnf true p tr nz prev).ires i = true) ∧
    ((trialStep fitcnf true p tr nz prev).psmp = 0
      ↔ ∀ i, (trialStep fitcnf true p tr nz prev).ires i = false) ∧
    (∀ i, (trialStep fitcnf true p tr nz prev).ires i = true
      ↔ ((trialStep fitcnf true p tr nz prev).raft i = tr.raftObs ∧
          (fitcnf = true → (trialStep fitcnf true p tr nz prev).caft i = some tr.caftObs))) := by
  have hn' : (0 : ℝ) < (n : ℝ) := by exact_mod_cast hn
  have hcardle : ((Finset.univ.filter
      (fun i : Fin n => iresF (fun x => upfun x p.h) fitcnf p tr nz prev i = true)).card : ℝ)
      ≤ (n : ℝ) := by
    have := Finset.card_filter_le (Finset.univ : Finset (Fin n))
      (fun i => iresF (fun x => upfun x p.h) fitcnf p tr nz prev i = true)
    exact_mod_cast this.trans_eq (by simp)
  refine ⟨by simp [psmpF, survFrac], ⟨?_, ?_⟩, ?_, ?_, ?_⟩
  · simp only [trialStep_psmp, psmpF, if_true, survFrac]
    positivity
  · simp only [trialStep_psmp, psmpF, if_true, survFrac]
    exact (div_le_one hn').mpr hcardle
  · simp only [trialStep_psmp, trialStep_ires, psmpF, if_true, survFrac]
    rw [div_eq_iff hn'.ne', one_mul]
    rw [show ((n : ℝ) = ((Finset.univ : Finset (Fin n)).card : ℝ)) by simp]
    rw [Nat.cast_inj]
    rw [Finset.card_filter_eq_iff]
    constructor
    · intro hall i; exact hall i (Finset.mem_univ i)
    · intro hall i _; exact hall i
  · simp only [trialStep_psmp, trialStep_ires, psmpF, if_true, survFrac]
    rw [div_eq_zero_iff]
    constructor
    · intro hc
      rcases hc with hc | hc
      · have : (Finset.univ.filter
            (fun i : Fin n => iresF (fun x => upfun x p.h) fitcnf p tr nz prev i = true)).card
            = 0 := by exact_mod_cast hc
        rw [Finset.card_filter_eq_zero_iff] at this
        intro i
        have := this i (Finset.mem_univ i)
        simpa using this
      · exact absurd hc hn'.ne'
    · intro hall
      left
      rw [Nat.cast_eq_zero, Finset.card_filter_eq_zero_iff]
      intro i _
      simp [hall i]
  · intro i
    simp only [trialStep_ires, trialStep_raft, trialStep_caft, iresF, caftF]
    cases fitcnf with
    | false => simp
    | true => simp [caftVF]

theorem survival_weight_spec_w :
    ((trialStep false true wP (wTrial 1) wNz (initState 1)).psmp
        = ((Finset.univ.filter
            (fun i : Fin 1 => (trialStep false true wP (wTrial 1) wNz (initState 1)).ires i
              = true)).card : ℝ) / ((1 : ℕ) : ℝ)) ∧
    (0 ≤ (trialStep false true wP (wTrial 1) wNz (initState 1)).psmp
      ∧ (trialStep false true wP (wTrial 1) wNz (initState 1)).psmp ≤ 1) ∧
    ((trialStep false true wP (wTrial 1) wNz (initState 1)).psmp = 1
      ↔ ∀ i, (trialStep false true wP (wTrial 1) wNz (initState 1)).ires i = true) ∧
    ((trialStep false true wP (wTrial 1) wNz (initState 1)).psmp = 0
      ↔ ∀ i, (trialStep false true wP (wTrial 1) wNz (initState 1)).ires i = false) ∧
    (∀ i, (trialStep false true wP (wTrial 1) wNz (initState 1)).ires i = true
      ↔ ((trialStep false true wP (wTrial 1) wNz (initState 1)).raft i = (wTrial 1).raftObs ∧
          (false = true →
            (trialStep false true wP (wTrial 1) wNz (initState 1)).caft i
              = some (wTrial 1).caftObs))) :=
  survival_weight_spec false wP (wTrial 1) wNz (initState 1) (by norm_num)

/-- C3: when no particle survives conditioning, every post-resample
belief is reset to exactly 0, the emitted survival weight is exactly 0,
and the (total) simulation loop simply continues with the next trial. -/
theorem degenerate_resample_reset (fitcnf : Bool) (p : Params) {n : ℕ}
    (tr : TrialInput) (nz : Noise n) (prev : SimState n)
    (hnone : ∀ i, (trialStep fitcnf true p tr nz prev).ires i = false) :
    (∀ i, (trialStep fitcnf true p tr nz prev).xt i = 0) ∧
    (trialStep fitcnf true p tr nz prev).psmp = 0 ∧
    (∀ rest : List (TrialInput × Noise n),
      runSim fitcnf true p prev ((tr, nz) :: rest)
        = trialStep fitcnf true p tr nz prev
          :: runSim fitcnf true p (nextState (trialStep fitcnf true p tr nz prev)) rest) := by
  have hm : ∀ i, iresF (fun x => upfun x p.h) fitcnf p tr nz prev i = false := by
    intro i; simpa using hnone i
  have hsurv : survivors n (iresF (fun x => upfun x p.h) fitcnf p tr nz prev) = [] := by
    rw [survivors, List.filter_eq_nil_iff]
    intro a _; simp [hm a]
  refine ⟨?_, ?_, fun rest => rfl⟩
  · intro i
    simp [xtF, resampleX, hsurv]
  · have hfil : (Finset.univ.filter
        (fun i : Fin n => iresF (fun x => upfun x p.h) fitcnf p tr nz prev i = true)) = ∅ := by
      rw [Finset.filter_eq_empty_iff]
      intro i _; simp [hm i]
    simp [psmpF, survFrac, hfil]

theorem degenerate_resample_reset_w :
    (∀ i, (trialStep false true wP (wTrial 2) wNz (initState 1)).xt i = 0) ∧
    (trialStep false true wP (wTrial 2) wNz (initState 1)).psmp = 0 ∧
    (∀ rest : List (TrialInput × Noise 1),
      runSim false true wP (initState 1) ((wTrial 2, wNz) :: rest)
        = trialStep false true wP (wTrial 2) wNz (initState 1)
          :: runSim false true wP
              (nextState (trialStep false true wP (wTrial 2) wNz (initState 1))) rest) :=
  degenerate_resample_reset false wP (wTrial 2) wNz (initState 1)
    (fun i => by simp [wIres_eval])

/-- C4: when at least one particle survives conditioning, every
post-resample belief is one of the surviving particles' pre-resample
beliefs, and conversely every surviving particle's pre-resample belief
is reachable in every slot under some realization of the bootstrap
draw. -/
theorem bootstrap_closure (fitcnf : Bool) (p : Params) {n : ℕ}
    (tr : TrialInput) (nz : Noise n) (prev : SimState n)
    (hsome : ∃ j, (trialStep fitcnf true p tr nz prev).ires j = true) :
    (∀ i, ∃ j, (trialStep fitcnf true p tr nz prev).ires j = true ∧
        (trialStep fitcnf true p tr nz prev).xt i
          = (trialStep fitcnf true p tr nz prev).xevid j) ∧
    (∀ j, (trialStep fitcnf true p tr nz prev).ires j = true → ∀ i, ∃ pk : Fin n → ℕ,
        (trialStep fitcnf true p tr ⟨nz.zinf, nz.zsel, nz.zcnf, pk⟩ prev).xt i
          = (trialStep fitcnf true p tr nz prev).xevid j) := by
  obtain ⟨j0, hj0⟩ := hsome
  rw [trialStep_ires] at hj0
  have hj0s : j0 ∈ survivors n (iresF (fun x => upfun x p.h) fitcnf p tr nz prev) :=
    List.mem_filter.mpr ⟨List.mem_finRange j0, hj0⟩
  have hlen : (survivors n (iresF (fun x => upfun x p.h) fitcnf p tr nz prev)).length ≠ 0 := by
    intro h0
    rw [List.length_eq_zero] at h0
    rw [h0] at hj0s
    exact (List.not_mem_nil j0) hj0s
  constructor
  · intro i
    refine ⟨(survivors n (iresF (fun x => upfun x p.h) fitcnf p tr nz prev)).get
      ⟨nz.pick i % _, Nat.mod_lt _ (Nat.pos_of_ne_zero hlen)⟩, ?_, ?_⟩
    · rw [trialStep_ires]
      have hmem := List.get_mem
        (survivors n (iresF (fun x => upfun x p.h) fitcnf p tr nz prev))
        _ (Nat.mod_lt (nz.pick i) (Nat.pos_of_ne_zero hlen))
      exact (List.mem_filter.mp hmem).2
    · rw [trialStep_xt, trialStep_xevid, xtF, if_pos rfl, resampleX, dif_neg hlen]
  · intro j hj i
    rw [trialStep_ires] at hj
    have hjs : j ∈ survivors n (iresF (fun x => upfun x p.h) fitcnf p tr nz prev) :=
      List.mem_filter.mpr ⟨List.mem_finRange j, hj⟩
    obtain ⟨k, hk⟩ := List.mem_iff_get.mp hjs
    refine ⟨fun _ => k.val, ?_⟩
    show resampleX n (xevidF (fun x => upfun x p.h) p tr nz prev)
        (iresF (fun x => upfun x p.h) fitcnf p tr nz prev) (fun _ => k.val) i
      = xevidF (fun x => upfun x p.h) p tr nz prev j
    rw [resampleX, dif_neg hlen]
    have hfin : (⟨k.val %
        (survivors n (iresF (fun x => upfun x p.h) fitcnf p tr nz prev)).length,
        Nat.mod_lt _ (Nat.pos_of_ne_zero hlen)⟩ :
        Fin (survivors n (iresF (fun x => upfun x p.h) fitcnf p tr nz prev)).length) = k :=
      Fin.ext (Nat.mod_eq_of_lt k.isLt)
    rw [hfin, hk]

theorem bootstrap_closure_w :
    (∀ i, ∃ j, (trialStep false true wP (wTrial 1) wNz (initState 1)).ires j = true ∧
        (trialStep false true wP (wTrial 1) wNz (initState 1)).xt i
          = (trialStep false true wP (wTrial 1) wNz (initState 1)).xevid j) ∧
    (∀ j, (trialStep false true wP (wTrial 1) wNz (initState 1)).ires j = true →
      ∀ i, ∃ pk : Fin 1 → ℕ,
        (trialStep false true wP (wTrial 1) ⟨wNz.zinf, wNz.zsel, wNz.zcnf, pk⟩
            (initState 1)).xt i
          = (trialStep false true wP (wTrial 1) wNz (initState 1)).xevid j) :=
  bootstrap_closure false wP (wTrial 1) wNz (initState 1)
    ⟨0, by simp [wIres_eval]⟩

theorem runSimG_range (up : ℝ → ℝ) (fitcnf resamp : Bool) (p : Params) {n : ℕ} :
    ∀ (ts : List (TrialInput × Noise n)) (st : SimState n),
      (runSimG up fitcnf resamp p st ts).Forall fun r =>
        ∀ i, (r.raft i = 1 ∨ r.raft i = 2) ∧
          (r.caft i = none ∨ r.caft i = some 1 ∨ r.caft i = some 2)
  | [], _ => by simp [runSimG, List.Forall]
  | tn :: rest, st => by
    rw [runSimG, List.forall_cons]
    refine ⟨fun i => ⟨?_, ?_⟩, runSimG_range up fitcnf resamp p rest _⟩
    · show raftF up p tn.1 tn.2 st i = 1 ∨ raftF up p tn.1 tn.2 st i = 2
      rw [raftF]
      split
      · exact Or.inr rfl
      · exact Or.inl rfl
    · show caftF up fitcnf p tn.1 tn.2 st i = none ∨
        caftF up fitcnf p tn.1 tn.2 st i = some 1 ∨ caftF up fitcnf p tn.1 tn.2 st i = some 2
      rw [caftF]
      split
      · rw [caftVF]
        split
        · exact Or.inr (Or.inr rfl)
        · exact Or.inr (Or.inl rfl)
      · exact Or.inl rfl

/-- C8: on every trial of every run, every particle's emitted response
is 1 or 2, and its emitted confidence is either unassigned (the variant
does not fit confidence) or 1 or 2 — for arbitrary parameters, evidence
and noise realizations. -/
theorem response_confidence_range (fitcnf resamp : Bool) (p : Params) {n : ℕ}
    (st : SimState n) (ts : List (TrialInput × Noise n)) :
    (runSim fitcnf resamp p st ts).Forall fun r =>
      ∀ i, (r.raft i = 1 ∨ r.raft i = 2) ∧
        (r.caft i = none ∨ r.caft i = some 1 ∨ r.caft i = some 2) :=
  runSimG_range (fun x => upfun x p.h) fitcnf resamp p ts st

theorem runSimG_psmp (up : ℝ → ℝ) (fitcnf : Bool) (p : Params) {n : ℕ} :
    ∀ (ts : List (TrialInput × Noise n)) (st : SimState n),
      (runSimG up fitcnf false p st ts).Forall fun r => r.psmp = 1
  | [], _ => by simp [runSimG, List.Forall]
  | _ :: rest, st => by
    rw [runSimG, List.forall_cons]
    exact ⟨rfl, runSimG_psmp up fitcnf p rest _⟩

/-- Modelled from the spec: the response of a pure sign-based classifier
(1 on non-negative accumulated evidence, 2 on negative). -/
def signResp (x : ℝ) : ℕ :=
  if x < 0 then 2 else 1

/-- Modelled from the spec: the within-block accumulated evidence of the
sign classifier — each entry is (trial index within block, trial llr),
and accumulation restarts at every block start. -/
def accLLR : List (ℕ × ℝ) → ℝ → List ℝ
  | [], _ => []
  | t :: rest, acc =>
    ((if t.1 > 1 then acc else 0) + t.2)
      :: accLLR rest ((if t.1 > 1 then acc else 0) + t.2)

/-- The (trial index, trial llr) stream of a trial list. -/
def trialLLRs {n : ℕ} (ts : List (TrialInput × Noise n)) : List (ℕ × ℝ) :=
  ts.map fun tn => (tn.1.seqind, tn.1.seqllr)

/-- Modelled from the spec: the simulator in the h → 0 limit, in which
the hazard correction is a no-op on carried beliefs (the source applies
`upfun · h`; `upfun_tendsto` is the limit statement). -/
def runSimNoHazard (fitcnf resamp : Bool) (p : Params) {n : ℕ}
    (st : SimState n) (ts : List (TrialInput × Noise n)) : List (TrialResult n) :=
  runSimG id fitcnf resamp p st ts

theorem tendsto_log_sub_log (a b : ℝ) (ha : 0 < a) (hb : 0 < b) :
    Filter.Tendsto (fun c : ℝ => Real.log (c + a) - Real.log (c + b))
      Filter.atTop (nhds 0) := by
  have hcb : Filter.Tendsto (fun c : ℝ => c + b) Filter.atTop Filter.atTop :=
    Filter.tendsto_atTop_add_const_right _ b Filter.tendsto_id
  have h2 : Filter.Tendsto (fun c : ℝ => (a - b) / (c + b)) Filter.atTop (nhds 0) :=
    Filter.Tendsto.div_atTop tendsto_const_nhds hcb
  have h3 : Filter.Tendsto (fun c : ℝ => 1 + (a - b) / (c + b)) Filter.atTop (nhds 1) := by
    have := Filter.Tendsto.const_add (1 : ℝ) h2
    simpa using this
  have h1 : Filter.Tendsto (fun c : ℝ => (c + a) / (c + b)) Filter.atTop (nhds 1) := by
    refine h3.congr' ?_
    filter_upwards [Filter.eventually_gt_atTop (0 : ℝ)] with c hc
    have hcb0 : c + b ≠ 0 := by positivity
    field_simp
  have h4 : Filter.Tendsto (fun c : ℝ => Real.log ((c + a) / (c + b)))
      Filter.atTop (nhds 0) := by
    have hlog := (Real.continuousAt_log one_ne_zero).tendsto.comp h1
    simpa using hlog
  refine h4.congr' ?_
  filter_upwards [Filter.eventually_gt_atTop (0 : ℝ)] with c hc
  rw [Real.log_div (by positivity) (by positivity)]

theorem hazard_ratio_tendsto :
    Filter.Tendsto (fun h : ℝ => (1 - h) / h) (nhdsWithin 0 (Set.Ioi 0)) Filter.atTop := by
  have h1 : Filter.Tendsto (fun h : ℝ => h⁻¹) (nhdsWithin 0 (Set.Ioi 0)) Filter.atTop :=
    tendsto_inv_zero_atTop
  have h2 : Filter.Tendsto (fun h : ℝ => 1 - h) (nhdsWithin 0 (Set.Ioi 0)) (nhds 1) := by
    have hc : Filter.Tendsto (fun h : ℝ => 1 - h) (nhds 0) (nhds (1 - 0)) :=
      (continuous_const.sub continuous_id).tendsto 0
    simpa using hc.mono_left nhdsWithin_le_nhds
  have h3 := Filter.Tendsto.mul_atTop one_pos h2 h1
  refine h3.congr fun h => ?_
  rw [div_eq_mul_inv]

theorem upfun_tendsto (x : ℝ) :
    Filter.Tendsto (fun h : ℝ => upfun x h) (nhdsWithin 0 (Set.Ioi 0)) (nhds x) := by
  have hcomp := (tendsto_log_sub_log (Real.exp (-x)) (Real.exp x)
      (Real.exp_pos _) (Real.exp_pos _)).comp hazard_ratio_tendsto
  have hadd := Filter.Tendsto.const_add x hcomp
  rw [add_zero] at hadd
  refine hadd.congr fun h => ?_
  simp only [Function.comp]
  rw [upfun]
  ring

theorem runSim0_sign (fitcnf : Bool) (hh sc tc gc : ℝ) {n : ℕ} :
    ∀ (ts : List (TrialInput × Noise n)) (st : SimState n) (acc : ℝ),
      (∀ i, st.xt i = acc) →
      (runSimG id fitcnf false ⟨hh, 0, 0, sc, tc, gc⟩ st ts).map (fun r => r.raft)
        = (accLLR (trialLLRs ts) acc).map (fun a _ => signResp a)
  | [], _, _, _ => by simp [runSimG, trialLLRs, accLLR]
  | tn :: rest, st, acc, hst => by
    have hx : ∀ i, xevidF id ⟨hh, 0, 0, sc, tc, gc⟩ tn.1 tn.2 st i
        = (if tn.1.seqind > 1 then acc else 0) + tn.1.seqllr := by
      intro i
      rw [xevidF, xpreF]
      simp [hst i]
    rw [runSimG]
    rw [show trialLLRs (tn :: rest) = (tn.1.seqind, tn.1.seqllr) :: trialLLRs rest from rfl]
    rw [accLLR, List.map_cons, List.map_cons]
    congr 1
    · funext i
      show raftF id ⟨hh, 0, 0, sc, tc, gc⟩ tn.1 tn.2 st i = signResp _
      rw [raftF, xrF, hx i, signResp]
      norm_num
    · refine runSim0_sign fitcnf hh sc tc gc rest _
        ((if tn.1.seqind > 1 then acc else 0) + tn.1.seqllr) fun i => ?_
      show xtF id fitcnf false ⟨hh, 0, 0, sc, tc, gc⟩ tn.1 tn.2 st i
        = (if tn.1.seqind > 1 then acc else 0) + tn.1.seqllr
      rw [xtF, if_neg Bool.false_ne_true]
      exact hx i

/-- C9 (amended): the hazard correction tends to the identity as
h → 0 from the right, and the simulator with the hazard correction at
that no-op limit, run forward with zero inference and selection noise,
produces on every trial for every particle exactly the sign-classifier
response on the within-block accumulated evidence. -/
theorem zero_noise_sign_amended :
    (∀ x : ℝ, Filter.Tendsto (fun h : ℝ => upfun x h)
        (nhdsWithin 0 (Set.Ioi 0)) (nhds x)) ∧
    (∀ (fitcnf : Bool) (hh sc tc gc : ℝ) (n : ℕ) (ts : List (TrialInput × Noise n)),
      (runSimNoHazard fitcnf false ⟨hh, 0, 0, sc, tc, gc⟩ (initState n) ts).map
          (fun r => r.raft)
        = (accLLR (trialLLRs ts) 0).map (fun a _ => signResp a)) :=
  ⟨upfun_tendsto, fun fitcnf hh sc tc gc n ts =>
    runSim0_sign fitcnf hh sc tc gc ts (initState n) 0 fun _ => rfl⟩

/-- Parameters with hazard rate exactly 0 (outside the spec's (0,1)
domain): the counterexample input for the claim as stated. -/
def cexP : Params := ⟨0, 0, 0, 0, 0, 0⟩

/-- Block-start trial with evidence -1. -/
def cexTr1 : TrialInput := ⟨1, -1, 2, 1, 1, 1, 1⟩

/-- Continuation trial with evidence 0. -/
def cexTr2 : TrialInput := ⟨2, 0, 2, 1, 1, 1, 1⟩

/-- The two-trial counterexample sequence. -/
def cexTrials : List (TrialInput × Noise 1) := [(cexTr1, wNz), (cexTr2, wNz)]

theorem cex_xt1 : xtF (fun x => upfun x cexP.h) false false cexP cexTr1 wNz (initState 1)
    = fun _ => -1 := by
  funext i
  rw [xtF, if_neg Bool.false_ne_true, xevidF, xpreF]
  norm_num [cexP, cexTr1, wNz, initState]

theorem cex_upfun : upfun (-1) 0 = 1 := by
  rw [upfun]
  norm_num [Real.log_exp]

/-- C9 counterexample: with σ_inf = σ_sel = σ_cnf = 0 and h = 0
literally, the simulated responses do not equal the sign classifier on
accumulated evidence.  On a two-trial block with evidence -1 then 0 the
classifier answers [2, 2] (accumulated evidence -1 stays negative), but
the simulator answers [2, 1]: at h = 0 the hazard formula divides by
zero, and on the continuation trial the source's IEEE evaluation gives
a NaN belief, `NaN < 0` is false, so `raft = 1 + (NaN < 0) = 1` — while
this embedding's exact-real evaluation gives `upfun (-1) 0 = +1 ≥ 0`,
so also response 1.  The two semantics disagree on the internal belief
at h = 0 (NaN versus +1) but agree on the emitted response this theorem
speaks about, so the refutation holds of the source itself. -/
theorem zero_noise_sign_cex :
    ¬ ((runSim false false cexP (initState 1) cexTrials).map (fun r => r.raft)
        = (accLLR (trialLLRs cexTrials) 0).map (fun a _ => signResp a)) := by
  intro hEq
  have hL : (runSim false false cexP (initState 1) cexTrials).map (fun r => r.raft)
      = [raftF (fun x => upfun x cexP.h) cexP cexTr1 wNz (initState 1),
         raftF (fun x => upfun x cexP.h) cexP cexTr2 wNz
           (nextState (trialStepG (fun x => upfun x cexP.h) false false cexP cexTr1 wNz
             (initState 1)))] := rfl
  have hR : (accLLR (trialLLRs cexTrials) 0).map (fun (a : ℝ) (_ : Fin 1) => signResp a)
      = [fun _ => signResp (-1), fun _ => signResp (-1)] := by
    show (accLLR [((1 : ℕ), (-1 : ℝ)), ((2 : ℕ), (0 : ℝ))] 0).map _ = _
    rw [accLLR, accLLR, accLLR]
    norm_num
  rw [hL, hR] at hEq
  injection hEq with h1 h23
  injection h23 with h2 h3
  have hx : (nextState (trialStepG (fun x => upfun x cexP.h) false false cexP cexTr1 wNz
      (initState 1))).xt 0 = -1 := congrFun cex_xt1 0
  have hraft2 : raftF (fun x => upfun x cexP.h) cexP cexTr2 wNz
      (nextState (trialStepG (fun x => upfun x cexP.h) false false cexP cexTr1 wNz
        (initState 1))) 0 = 1 := by
    rw [raftF, xrF, xevidF, xpreF, if_pos (by norm_num [cexTr2] : cexTr2.seqind > 1), hx]
    rw [show cexP.h = 0 from rfl]
    simp only [cex_upfun]
    norm_num [cexP, cexTr2, wNz]
  have h20 := congrFun h2 (0 : Fin 1)
  rw [hraft2] at h20
  have hsr : signResp (-1) = 2 := by norm_num [signResp]
  rw [hsr] at h20
  exact absurd h20 (by norm_num)

/-- C10: with conditioning/resampling off, the emitted survival weight
is exactly 1 on every trial: `psmp` keeps its all-ones initialization
because only the resampling branch overwrites it. -/
theorem forward_psmp_one (fitcnf : Bool) (p : Params) {n : ℕ}
    (st : SimState n) (ts : List (TrialInput × Noise n)) :
    (runSim fitcnf false p st ts).Forall fun r => r.psmp = 1 :=
  runSimG_psmp (fun x => upfun x p.h) fitcnf p ts st

end

end Sim
